import Mathlib

/-!
Shallow embedding of `src/server.js`, a small Express CRUD server storing
titled links per academic subject.  The server has two storage variants
selected at startup: a MongoDB-backed one (`USE_DB`) and a file-backed one
persisting a single JSON document.  We embed the request handlers as pure
functions over an explicit state:

* the file-backed state is the parsed JSON document, an association list
  from subject key to `{name, links}` (JSON objects preserve key order);
* the database-backed state is the collection of link documents.

Time (`Date.now()` / `new Date()`) is passed explicitly as a `Nat`
(milliseconds).  The file variant's `addedAt` field is an ISO-8601 string in
the source; since ISO-8601 strings of the modern era compare
lexicographically exactly as the underlying instants, we model `addedAt`
as the `Nat` timestamp.  JavaScript `undefined`/missing body fields are
modelled with `Option`, and JS string falsiness (`!s`) as
"missing or empty".
-/

/-- Metadata of one subject in the fixed `SUBJECTS` registry
(`src/server.js` lines 18-24). -/
structure SubjectInfo where
  name : String
  containerId : String
deriving Repr, DecidableEq

/-- The fixed subject registry `SUBJECTS` (`src/server.js` lines 18-24),
as an association list mirroring the JS object's key order. -/
def SUBJECTS : List (String × SubjectInfo) :=
  [ ("toc", ⟨"Theory of Computation", "tocLinks"⟩),
    ("ai", ⟨"Artificial Intelligence", "aiLinks"⟩),
    ("sepm", ⟨"Software Engineering Project Management", "sepmLinks"⟩),
    ("cn", ⟨"Computer Networks", "cnLinks"⟩),
    ("rm", ⟨"Research Methodology", "rmLinks"⟩) ]

/-- Property access on a JS object represented as an association list with
distinct keys: the value at the first entry whose key matches, if any. -/
def assocGet {α : Type} : List (String × α) → String → Option α
  | [], _ => none
  | q :: rest, key => if q.1 = key then some q.2 else assocGet rest key

/-- `SUBJECTS[key]`: lookup of a subject key in the registry. -/
def subjectsLookup (key : String) : Option SubjectInfo :=
  assocGet SUBJECTS key

/-- One link record.  In the file variant `_id` is `Date.now().toString(36)`
and `addedAt` the creation instant (`src/server.js` line 112); in the
database variant both are store-assigned. -/
structure Link where
  linkId : String
  subjectKey : String
  title : String
  url : String
  addedBy : String
  addedAt : Nat
deriving Repr, DecidableEq

/-- One value of the stored JSON document's top-level mapping:
`{ name, links: [...] }` (`defaultJsonData`, `src/server.js` lines 41-45). -/
structure SubjectData where
  name : String
  links : List Link
deriving Repr, DecidableEq

/-- The parsed JSON document of the file variant: an association list from
subject key to `SubjectData`, in JSON object key order. -/
abbrev FileData : Type := List (String × SubjectData)

/-- `defaultJsonData()` (`src/server.js` lines 41-45): an entry per known
subject with its display name and no links. -/
def defaultJsonData : FileData :=
  SUBJECTS.map (fun p => (p.1, { name := p.2.name, links := [] }))

/-- JS property read `data[key]` on the parsed document. -/
def lookupData (data : FileData) (key : String) : Option SubjectData :=
  assocGet data key

/-- In-place mutation of the entry at `key` (the JS handlers mutate
`data[key]` and rewrite the whole document). -/
def updateData : FileData → String → SubjectData → FileData
  | [], _, _ => []
  | q :: rest, key, sd =>
      if q.1 = key then (q.1, sd) :: updateData rest key sd
      else q :: updateData rest key sd

/-- All links of the document across all subjects, in document order. -/
def allLinks (data : FileData) : List Link :=
  (data.map (fun p => p.2.links)).flatten

/-- The character JS uses for digit `d` in base-36 numerals:
`0`-`9` then `a`-`z`. -/
def digitChar36 (d : Nat) : Char :=
  if d < 10 then Char.ofNat (48 + d) else Char.ofNat (87 + d)

/-- Little-endian base-36 digits with explicit fuel, so that the function is
structurally recursive and kernel-computable; agrees with `Nat.digits 36`
once `n ≤ fuel` (proved below). -/
def digitsAux36 : Nat → Nat → List Nat
  | _, 0 => []
  | 0, _ + 1 => []
  | fuel + 1, n + 1 => ((n + 1) % 36) :: digitsAux36 fuel ((n + 1) / 36)

/-- `n.toString(36)` of JavaScript: base-36 numeral of `n`, lowercase,
most significant digit first, `"0"` for `0`. -/
def toString36 (n : Nat) : String :=
  if n = 0 then "0"
  else String.mk (((digitsAux36 n n).reverse).map digitChar36)

/-- JS falsiness of an optional string field: `undefined` and `""` are
falsy, everything else truthy. -/
def strFalsy : Option String → Bool
  | none => true
  | some s => s == ""

/-- A parsed JSON request body `{title, url, addedBy}`; absent fields are
`none`. -/
structure ReqBody where
  title : Option String
  url : Option String
  addedBy : Option String
deriving Repr, DecidableEq

/-- An HTTP response produced by a handler: either a success with status
and payload, or an error with status and error message. -/
inductive Resp (α : Type) where
  | ok (status : Nat) (body : α)
  | err (status : Nat) (msg : String)
deriving Repr, DecidableEq

/-- The HTTP status code of a response. -/
def statusOf {α : Type} : Resp α → Nat
  | .ok s _ => s
  | .err s _ => s

/-- Characters allowed after the first in a URL scheme
(ASCII alphanumerics and `+`, `-`, `.`). -/
def isSchemeChar (c : Char) : Bool :=
  c.isAlpha || c.isDigit || c == '+' || c == '-' || c == '.'

/-- Scans for the `:` that ends a URL scheme. -/
def schemeTail : List Char → Bool
  | [] => false
  | c :: cs => if c == ':' then true else isSchemeChar c && schemeTail cs

/-- Success of `new URL(url)` (`src/server.js` line 106): a WHATWG absolute
URL must start with a scheme — an ASCII letter followed by scheme
characters and a `:`.  We embed this syntactic requirement; strings
without such a prefix (e.g. `"not-a-url"`) make `new URL` throw. -/
def isValidURL (s : String) : Bool :=
  match s.data with
  | [] => false
  | c :: cs => c.isAlpha && schemeTail cs

/-- The JS expression `data[key]?.links || []`: the stored links of a
subject, tolerating a missing entry. -/
def linksOf (data : FileData) (key : String) : List Link :=
  match lookupData data key with
  | some sd => sd.links
  | none => []

/-- `GET /api/subjects`, file variant (`src/server.js` lines 63-81): one
entry per registry subject, with the display name from the registry and
`data[key]?.links || []`. -/
def getAllSubjects (data : FileData) : List (String × SubjectData) :=
  SUBJECTS.map (fun p => (p.1, { name := p.2.name, links := linksOf data p.1 }))

/-- `GET /api/subjects/:key/links`, file variant
(`src/server.js` lines 83-98). -/
def getSubjectLinks (data : FileData) (key : String) : Resp (List Link) :=
  match subjectsLookup key with
  | none => .err 404 "Subject not found"
  | some _ => .ok 200 (linksOf data key)

/-- The `newLink` object built by the file variant of the POST handler
(`src/server.js` line 112): id from `Date.now().toString(36)`, the request's
title and url, `addedBy || 'admin'`, and the creation instant. -/
def newLinkOf (key : String) (body : Option ReqBody) (now : Nat) : Link :=
  let b := body.getD ⟨none, none, none⟩
  { linkId := toString36 now, subjectKey := key,
    title := b.title.getD "", url := b.url.getD "",
    addedBy := if strFalsy b.addedBy then "admin" else b.addedBy.getD "",
    addedAt := now }

/-- `POST /api/subjects/:key/links`, file variant
(`src/server.js` lines 100-120).  `now` is the clock reading used for both
`Date.now()` and `new Date()`.  When the document lacks the entry for
`key`, the JS `data[req.params.key].links.push(...)` throws a `TypeError`
which the surrounding `try` turns into a 500 before any write. -/
def addLink (data : FileData) (key : String) (body : Option ReqBody)
    (now : Nat) : Resp Link × FileData :=
  let b := body.getD ⟨none, none, none⟩
  if strFalsy b.title || strFalsy b.url then
    (.err 400 "Missing title or url", data)
  else
    match subjectsLookup key with
    | none => (.err 404 "Subject not found", data)
    | some _ =>
        let url := b.url.getD ""
        if !isValidURL url then (.err 400 "Invalid URL", data)
        else
          match lookupData data key with
          | none => (.err 500 "Failed to add link", data)
          | some sd =>
              let newLink : Link := newLinkOf key body now
              (.ok 201 newLink,
               updateData data key { sd with links := sd.links ++ [newLink] })

/-- `list.findIndex(...)` followed by `list.splice(idx, 1)`
(`src/server.js` lines 133-135): remove the first element satisfying `p`,
returning it together with the remaining list. -/
def removeFirst (p : Link → Bool) : List Link → Option (Link × List Link)
  | [] => none
  | l :: ls =>
      if p l then some (l, ls)
      else
        match removeFirst p ls with
        | none => none
        | some (r, rest) => some (r, l :: rest)

/-- `DELETE /api/subjects/:key/links/:id`, file variant
(`src/server.js` lines 122-142).  The JS match test is
`(l._id || '') === id`, which coincides with `l._id === id` since `_id` is
always a string here.  When `data[key]` is absent the handler filters the
fresh empty array, finds nothing and answers 404. -/
def deleteLink (data : FileData) (key : String) (id : String) :
    Resp Link × FileData :=
  match subjectsLookup key with
  | none => (.err 404 "Subject not found", data)
  | some _ =>
      match lookupData data key with
      | none => (.err 404 "Link not found", data)
      | some sd =>
          match removeFirst (fun l => l.linkId == id) sd.links with
          | none => (.err 404 "Link not found", data)
          | some (removed, rest) =>
              (.ok 200 removed,
               updateData data key { sd with links := rest })

/-- Database-variant state: the `Link` collection
(`mongoose.model('Link', ...)`, `src/server.js` line 38). -/
structure DbState where
  links : List Link
deriving Repr, DecidableEq

/-- The document created by `Link.create` in the database variant
(`src/server.js` line 108): store-assigned id, schema default
`addedAt: Date.now`, and `addedBy: addedBy || 'admin'`. -/
def createdOf (key : String) (body : Option ReqBody) (newId : String)
    (now : Nat) : Link :=
  let b := body.getD ⟨none, none, none⟩
  { linkId := newId, subjectKey := key,
    title := b.title.getD "", url := b.url.getD "",
    addedBy := if strFalsy b.addedBy then "admin" else b.addedBy.getD "",
    addedAt := now }

/-- `POST /api/subjects/:key/links`, database variant
(`src/server.js` lines 100-109): same request validation, then
`Link.create({..., addedBy: addedBy || 'admin'})` with a store-assigned id
and `addedAt` defaulted to the current time. -/
def dbAddLink (st : DbState) (key : String) (body : Option ReqBody)
    (newId : String) (now : Nat) : Resp Link × DbState :=
  let b := body.getD ⟨none, none, none⟩
  if strFalsy b.title || strFalsy b.url then
    (.err 400 "Missing title or url", st)
  else
    match subjectsLookup key with
    | none => (.err 404 "Subject not found", st)
    | some _ =>
        let url := b.url.getD ""
        if !isValidURL url then (.err 400 "Invalid URL", st)
        else
          let created : Link := createdOf key body newId now
          (.ok 201 created, ⟨st.links ++ [created]⟩)

/-- One mutating request against the file-backed server, with the clock
reading at which an add executes. -/
inductive Op where
  | add (key : String) (body : Option ReqBody) (now : Nat)
  | del (key : String) (id : String)
deriving Repr, DecidableEq

/-- State transition of one request (reads leave the state unchanged and
are omitted). -/
def step (data : FileData) : Op → FileData
  | .add key body now => (addLink data key body now).2
  | .del key id => (deleteLink data key id).2

/-- State after a sequence of requests. -/
def run (data : FileData) : List Op → FileData
  | [] => data
  | op :: ops => run (step data op) ops

/-- The clock readings of the adds in a trace are at least `t` and
nondecreasing (wall time never goes backwards). -/
def timesMono : Nat → List Op → Prop
  | _, [] => True
  | t, .add _ _ now :: ops => t ≤ now ∧ timesMono now ops
  | t, .del _ _ :: ops => timesMono t ops

/-- The clock readings of the adds in a trace are strictly increasing and
above `t` (no two adds share a millisecond tick). -/
def timesStrict : Nat → List Op → Prop
  | _, [] => True
  | t, .add _ _ now :: ops => t < now ∧ timesStrict now ops
  | t, .del _ _ :: ops => timesStrict t ops

/-! ### Base-36 numerals: agreement with `Nat.digits` and injectivity -/

lemma digitsAux36_eq : ∀ fuel n, n ≤ fuel → digitsAux36 fuel n = Nat.digits 36 n
  | _, 0, _ => by cases ‹Nat› <;> simp [digitsAux36]
  | 0, n + 1, h => absurd h (by omega)
  | fuel + 1, n + 1, h => by
      have hdiv : (n + 1) / 36 < n + 1 := Nat.div_lt_self (Nat.succ_pos n) (by norm_num)
      rw [digitsAux36, Nat.digits_def' (by norm_num : 1 < 36) (Nat.succ_pos n),
        digitsAux36_eq fuel ((n + 1) / 36) (by omega)]

/-- Decoding of one base-36 digit character, left inverse to `digitChar36`
on digits below 36. -/
def charVal36 (c : Char) : Nat :=
  if c.toNat ≤ 57 then c.toNat - 48 else c.toNat - 87

lemma charVal36_digitChar36 : ∀ d, d < 36 → charVal36 (digitChar36 d) = d := by
  decide

/-- Decoding of a base-36 numeral, left inverse to `toString36`. -/
def ofString36 (s : String) : Nat :=
  Nat.ofDigits 36 ((s.data.map charVal36).reverse)

lemma ofString36_toString36 (n : Nat) : ofString36 (toString36 n) = n := by
  by_cases h : n = 0
  · subst h; decide
  · unfold toString36 ofString36
    rw [if_neg h]
    show Nat.ofDigits 36 (((((digitsAux36 n n).reverse).map digitChar36).map charVal36).reverse) = n
    rw [digitsAux36_eq n n le_rfl, List.map_map]
    have hcongr : ((Nat.digits 36 n).reverse).map (charVal36 ∘ digitChar36)
        = ((Nat.digits 36 n).reverse).map id := by
      apply List.map_congr_left
      intro d hd
      exact charVal36_digitChar36 d
        (Nat.digits_lt_base (by norm_num) (List.mem_reverse.mp hd))
    rw [hcongr, List.map_id, List.reverse_reverse, Nat.ofDigits_digits]

lemma toString36_injective : Function.Injective toString36 :=
  Function.LeftInverse.injective ofString36_toString36

/-! ### Association-list lemmas for the stored document -/

lemma assocGet_mem {α : Type} {s : List (String × α)} {key : String} {v : α}
    (h : assocGet s key = some v) : (key, v) ∈ s := by
  induction s with
  | nil => simp [assocGet] at h
  | cons q rest ih =>
      by_cases hk : q.1 = key
      · simp only [assocGet, if_pos hk, Option.some.injEq] at h
        cases q
        simp_all
      · simp only [assocGet, if_neg hk] at h
        exact List.mem_cons_of_mem q (ih h)

lemma subjectsLookup_mem {key : String} {info : SubjectInfo}
    (h : subjectsLookup key = some info) : (key, info) ∈ SUBJECTS :=
  assocGet_mem h

lemma lookupData_mem {data : FileData} {key : String} {sd : SubjectData}
    (h : lookupData data key = some sd) : (key, sd) ∈ data :=
  assocGet_mem h

lemma updateData_keys (data : FileData) (key : String) (sd : SubjectData) :
    (updateData data key sd).map Prod.fst = data.map Prod.fst := by
  induction data with
  | nil => rfl
  | cons q rest ih =>
      by_cases hk : q.1 = key <;> simp [updateData, hk, ih]

lemma lookupData_updateData_ne (data : FileData) (key key' : String)
    (sd : SubjectData) (h : key' ≠ key) :
    lookupData (updateData data key sd) key' = lookupData data key' := by
  induction data with
  | nil => rfl
  | cons q rest ih =>
      by_cases hk : q.1 = key
      · have h2 : ¬ key = key' := fun hc => h hc.symm
        have hne : ¬ q.1 = key' := by rw [hk]; exact h2
        simp only [updateData, if_pos hk, lookupData, assocGet, if_neg hne,
          if_neg h2]
        exact ih
      · by_cases hk' : q.1 = key'
        · simp only [updateData, if_neg hk, lookupData, assocGet, if_pos hk']
        · simp only [updateData, if_neg hk, lookupData, assocGet, if_neg hk']
          exact ih

lemma lookupData_updateData_self (data : FileData) (key : String)
    (sd0 sd : SubjectData) (h : lookupData data key = some sd0) :
    lookupData (updateData data key sd) key = some sd := by
  induction data with
  | nil => simp [lookupData, assocGet] at h
  | cons q rest ih =>
      by_cases hk : q.1 = key
      · simp [updateData, lookupData, assocGet, hk]
      · simp only [lookupData, assocGet, if_neg hk] at h
        simp only [updateData, if_neg hk]
        simp only [lookupData, assocGet, if_neg hk]
        exact ih h

lemma updateData_not_mem (data : FileData) (key : String) (sd : SubjectData)
    (h : key ∉ data.map Prod.fst) : updateData data key sd = data := by
  induction data with
  | nil => rfl
  | cons q rest ih =>
      simp only [List.map_cons, List.mem_cons, not_or] at h
      have hk : ¬ q.1 = key := fun hc => h.1 hc.symm
      simp [updateData, hk, ih h.2]

lemma updateData_split (data : FileData) (key : String) (sd0 sd : SubjectData)
    (hnd : (data.map Prod.fst).Nodup) (h : lookupData data key = some sd0) :
    ∃ pre post, data = pre ++ (key, sd0) :: post ∧
      updateData data key sd = pre ++ (key, sd) :: post := by
  induction data with
  | nil => simp [lookupData, assocGet] at h
  | cons q rest ih =>
      simp only [List.map_cons, List.nodup_cons] at hnd
      by_cases hk : q.1 = key
      · have hsd0 : q.2 = sd0 := by
          simp only [lookupData, assocGet, if_pos hk] at h
          simpa using h
        refine ⟨[], rest, ?_, ?_⟩
        · cases q; simp_all
        · have hrest : updateData rest key sd = rest :=
            updateData_not_mem rest key sd (hk ▸ hnd.1)
          simp [updateData, hk, hrest]
      · simp only [lookupData, assocGet, if_neg hk] at h
        obtain ⟨pre, post, h1, h2⟩ := ih hnd.2 h
        refine ⟨q :: pre, post, by simp [h1], ?_⟩
        simp [updateData, hk, h2]

lemma allLinks_append (a b : FileData) :
    allLinks (a ++ b) = allLinks a ++ allLinks b := by
  unfold allLinks
  rw [List.map_append, List.flatten_append]

lemma allLinks_cons (p : String × SubjectData) (rest : FileData) :
    allLinks (p :: rest) = p.2.links ++ allLinks rest := rfl

/-! ### `removeFirst` lemmas -/

lemma removeFirst_eq_some {p : Link → Bool} :
    ∀ {ls : List Link} {r : Link} {rest : List Link},
      removeFirst p ls = some (r, rest) →
      p r = true ∧ ∃ pre post, ls = pre ++ r :: post ∧ rest = pre ++ post ∧
        ∀ l ∈ pre, p l = false := by
  intro ls
  induction ls with
  | nil => intro r rest h; simp [removeFirst] at h
  | cons l ls ih =>
      intro r rest h
      by_cases hl : p l = true
      · simp only [removeFirst, hl, if_true, Option.some.injEq, Prod.mk.injEq]
          at h
        obtain ⟨rfl, rfl⟩ := h
        exact ⟨hl, [], ls, rfl, rfl, by simp⟩
      · have hl' : p l = false := by simpa using hl
        simp only [removeFirst, hl', Bool.false_eq_true, if_false] at h
        cases hrec : removeFirst p ls with
        | none => rw [hrec] at h; simp at h
        | some q =>
            obtain ⟨r0, rest0⟩ := q
            rw [hrec] at h
            simp only [Option.some.injEq, Prod.mk.injEq] at h
            obtain ⟨rfl, rfl⟩ := h
            obtain ⟨hq, pre, post, hls, hrest, hpre⟩ := ih hrec
            refine ⟨hq, l :: pre, post, by simp [hls], by simp [hrest], ?_⟩
            intro x hx
            rcases List.mem_cons.mp hx with rfl | hx
            · exact hl'
            · exact hpre x hx

lemma removeFirst_none_of {p : Link → Bool} : ∀ {ls : List Link},
    (∀ l ∈ ls, p l = false) → removeFirst p ls = none := by
  intro ls
  induction ls with
  | nil => intro _; rfl
  | cons l ls ih =>
      intro h
      have hl : p l = false := h l (by simp)
      have hrec : removeFirst p ls = none :=
        ih (fun x hx => h x (List.mem_cons_of_mem l hx))
      simp [removeFirst, hl, hrec]

lemma removeFirst_none_forall {p : Link → Bool} : ∀ {ls : List Link},
    removeFirst p ls = none → ∀ l ∈ ls, p l = false := by
  intro ls
  induction ls with
  | nil => intro _ l hl; simp at hl
  | cons l0 ls ih =>
      intro h l hl
      by_cases hl0 : p l0 = true
      · simp [removeFirst, hl0] at h
      · have hl0' : p l0 = false := by simpa using hl0
        simp only [removeFirst, hl0', Bool.false_eq_true, if_false] at h
        rcases List.mem_cons.mp hl with rfl | hl'
        · exact hl0'
        · cases hrec : removeFirst p ls with
          | none => exact ih hrec l hl'
          | some pr =>
              obtain ⟨r0, rest0⟩ := pr
              rw [hrec] at h
              simp at h

lemma removeFirst_sublist {p : Link → Bool} {ls rest : List Link} {r : Link}
    (h : removeFirst p ls = some (r, rest)) : rest.Sublist ls := by
  obtain ⟨-, pre, post, hls, hrest, -⟩ := removeFirst_eq_some h
  subst hls; subst hrest
  exact List.Sublist.append (List.Sublist.refl pre) (List.sublist_cons_self r post)

/-! ### Case analyses of the mutating handlers -/

lemma addLink_spec (data : FileData) (key : String) (body : Option ReqBody)
    (now : Nat) :
    (∃ s msg, addLink data key body now = (.err s msg, data)) ∨
    (∃ sd, lookupData data key = some sd ∧
      addLink data key body now =
        (.ok 201 (newLinkOf key body now),
         updateData data key
           { sd with links := sd.links ++ [newLinkOf key body now] })) := by
  by_cases h1 : (strFalsy (body.getD ⟨none, none, none⟩).title
      || strFalsy (body.getD ⟨none, none, none⟩).url) = true
  · exact Or.inl ⟨400, "Missing title or url", by simp [addLink, h1]⟩
  · have h1' : (strFalsy (body.getD ⟨none, none, none⟩).title
        || strFalsy (body.getD ⟨none, none, none⟩).url) = false := by
      simpa using h1
    cases hs : subjectsLookup key with
    | none => exact Or.inl ⟨404, "Subject not found", by simp [addLink, h1', hs]⟩
    | some info =>
        by_cases h2 : isValidURL ((body.getD ⟨none, none, none⟩).url.getD "")
            = true
        · cases hd : lookupData data key with
          | none =>
              exact Or.inl ⟨500, "Failed to add link",
                by simp [addLink, h1', hs, h2, hd]⟩
          | some sd =>
              exact Or.inr ⟨sd, rfl, by simp [addLink, h1', hs, h2, hd]⟩
        · have h2' : isValidURL ((body.getD ⟨none, none, none⟩).url.getD "")
              = false := by simpa using h2
          exact Or.inl ⟨400, "Invalid URL", by simp [addLink, h1', hs, h2']⟩

lemma deleteLink_spec (data : FileData) (key id : String) :
    (∃ s msg, deleteLink data key id = (.err s msg, data)) ∨
    (∃ sd r rest, lookupData data key = some sd ∧
      removeFirst (fun l => l.linkId == id) sd.links = some (r, rest) ∧
      deleteLink data key id =
        (.ok 200 r, updateData data key { sd with links := rest })) := by
  cases hs : subjectsLookup key with
  | none => exact Or.inl ⟨404, "Subject not found", by simp [deleteLink, hs]⟩
  | some info =>
      cases hd : lookupData data key with
      | none => exact Or.inl ⟨404, "Link not found", by simp [deleteLink, hs, hd]⟩
      | some sd =>
          cases hr : removeFirst (fun l => l.linkId == id) sd.links with
          | none =>
              exact Or.inl ⟨404, "Link not found",
                by simp [deleteLink, hs, hd, hr]⟩
          | some pr =>
              obtain ⟨r, rest⟩ := pr
              exact Or.inr ⟨sd, r, rest, rfl, hr,
                by simp [deleteLink, hs, hd, hr]⟩

lemma dbAddLink_spec (st : DbState) (key : String) (body : Option ReqBody)
    (newId : String) (now : Nat) :
    (∃ s msg, dbAddLink st key body newId now = (.err s msg, st)) ∨
    dbAddLink st key body newId now =
      (.ok 201 (createdOf key body newId now),
       ⟨st.links ++ [createdOf key body newId now]⟩) := by
  by_cases h1 : (strFalsy (body.getD ⟨none, none, none⟩).title
      || strFalsy (body.getD ⟨none, none, none⟩).url) = true
  · exact Or.inl ⟨400, "Missing title or url", by simp [dbAddLink, h1]⟩
  · have h1' : (strFalsy (body.getD ⟨none, none, none⟩).title
        || strFalsy (body.getD ⟨none, none, none⟩).url) = false := by
      simpa using h1
    cases hs : subjectsLookup key with
    | none =>
        exact Or.inl ⟨404, "Subject not found", by simp [dbAddLink, h1', hs]⟩
    | some info =>
        by_cases h2 : isValidURL ((body.getD ⟨none, none, none⟩).url.getD "")
            = true
        · exact Or.inr (by simp [dbAddLink, h1', hs, h2])
        · have h2' : isValidURL ((body.getD ⟨none, none, none⟩).url.getD "")
              = false := by simpa using h2
          exact Or.inl ⟨400, "Invalid URL", by simp [dbAddLink, h1', hs, h2']⟩

/-! ### Invariants of reachable file-variant states -/

/-- Every stored link list is sorted by `addedAt` and all stamps are at
most `t`. -/
def sortedInv (data : FileData) (t : Nat) : Prop :=
  ∀ q ∈ data, List.Pairwise (fun a b : Link => a.addedAt ≤ b.addedAt)
      q.2.links ∧ ∀ l ∈ q.2.links, l.addedAt ≤ t

/-- Every stored link's id is the base-36 numeral of its stamp, stamps are
at most `t` and pairwise distinct across the whole document. -/
def idsInv (data : FileData) (t : Nat) : Prop :=
  (∀ l ∈ allLinks data, l.linkId = toString36 l.addedAt ∧ l.addedAt ≤ t) ∧
  ((allLinks data).map (fun l => l.addedAt)).Nodup

lemma mem_updateData {data : FileData} {key : String} {sd : SubjectData}
    {q : String × SubjectData} (h : q ∈ updateData data key sd) :
    q ∈ data ∨ q.2 = sd := by
  induction data with
  | nil => simp [updateData] at h
  | cons p rest ih =>
      by_cases hk : p.1 = key
      · rw [updateData, if_pos hk] at h
        rcases List.mem_cons.mp h with rfl | h'
        · exact Or.inr rfl
        · rcases ih h' with h'' | h''
          · exact Or.inl (List.mem_cons_of_mem p h'')
          · exact Or.inr h''
      · rw [updateData, if_neg hk] at h
        rcases List.mem_cons.mp h with rfl | h'
        · exact Or.inl (List.mem_cons_self q rest)
        · rcases ih h' with h'' | h''
          · exact Or.inl (List.mem_cons_of_mem p h'')
          · exact Or.inr h''

lemma sortedInv_mono {data : FileData} {t t' : Nat} (h : sortedInv data t)
    (ht : t ≤ t') : sortedInv data t' :=
  fun q hq => ⟨(h q hq).1, fun l hl => le_trans ((h q hq).2 l hl) ht⟩

lemma newLinkOf_addedAt (key : String) (body : Option ReqBody) (now : Nat) :
    (newLinkOf key body now).addedAt = now := rfl

lemma newLinkOf_linkId (key : String) (body : Option ReqBody) (now : Nat) :
    (newLinkOf key body now).linkId = toString36 now := rfl

lemma sortedInv_addLink {data : FileData} {key : String} {body : Option ReqBody}
    {now t : Nat} (h : sortedInv data t) (ht : t ≤ now) :
    sortedInv (addLink data key body now).2 now := by
  rcases addLink_spec data key body now with ⟨s, msg, heq⟩ | ⟨sd, hd, heq⟩
  · rw [heq]
    exact sortedInv_mono h ht
  · rw [heq]
    intro q hq
    rcases mem_updateData hq with hq' | hq'
    · exact ⟨(h q hq').1, fun l hl => le_trans ((h q hq').2 l hl) ht⟩
    · have hsd := h _ (lookupData_mem hd)
      rw [hq']
      constructor
      · rw [List.pairwise_append]
        refine ⟨hsd.1, List.pairwise_singleton _ _, ?_⟩
        intro a ha b hb
        rw [List.mem_singleton.mp hb, newLinkOf_addedAt]
        exact le_trans (hsd.2 a ha) ht
      · intro l hl
        rcases List.mem_append.mp hl with hl' | hl'
        · exact le_trans (hsd.2 l hl') ht
        · rw [List.mem_singleton.mp hl', newLinkOf_addedAt]

lemma sortedInv_deleteLink {data : FileData} {key id : String} {t : Nat}
    (h : sortedInv data t) : sortedInv (deleteLink data key id).2 t := by
  rcases deleteLink_spec data key id with ⟨s, msg, heq⟩ |
    ⟨sd, r, rest, hd, hr, heq⟩
  · rw [heq]; exact h
  · rw [heq]
    intro q hq
    rcases mem_updateData hq with hq' | hq'
    · exact h q hq'
    · have hsd := h _ (lookupData_mem hd)
      have hsub := removeFirst_sublist hr
      rw [hq']
      exact ⟨hsd.1.sublist hsub, fun l hl => hsd.2 l (hsub.subset hl)⟩

lemma sortedInv_run : ∀ (ops : List Op) (data : FileData) (t : Nat),
    sortedInv data t → timesMono t ops →
    ∃ t', sortedInv (run data ops) t' := by
  intro ops
  induction ops with
  | nil => intro data t h _; exact ⟨t, h⟩
  | cons op ops ih =>
      intro data t h hm
      cases op with
      | add key body now =>
          obtain ⟨ht, hm'⟩ := hm
          exact ih _ now (sortedInv_addLink h ht) hm'
      | del key id =>
          exact ih _ t (sortedInv_deleteLink h) hm

lemma step_keys (data : FileData) (op : Op) :
    (step data op).map Prod.fst = data.map Prod.fst := by
  cases op with
  | add key body now =>
      rcases addLink_spec data key body now with ⟨s, msg, heq⟩ | ⟨sd, hd, heq⟩
      · show ((addLink data key body now).2).map Prod.fst = _
        rw [heq]
      · show ((addLink data key body now).2).map Prod.fst = _
        rw [heq]
        exact updateData_keys ..
  | del key id =>
      rcases deleteLink_spec data key id with ⟨s, msg, heq⟩ |
        ⟨sd, r, rest, hd, hr, heq⟩
      · show ((deleteLink data key id).2).map Prod.fst = _
        rw [heq]
      · show ((deleteLink data key id).2).map Prod.fst = _
        rw [heq]
        exact updateData_keys ..

lemma run_keys : ∀ (ops : List Op) (data : FileData),
    (run data ops).map Prod.fst = data.map Prod.fst := by
  intro ops
  induction ops with
  | nil => intro data; rfl
  | cons op ops ih =>
      intro data
      rw [run, ih, step_keys]

lemma idsInv_addLink {data : FileData} {key : String} {body : Option ReqBody}
    {now t : Nat} (hkeys : (data.map Prod.fst).Nodup)
    (h : idsInv data t) (ht : t < now) :
    idsInv (addLink data key body now).2 now := by
  rcases addLink_spec data key body now with ⟨s, msg, heq⟩ | ⟨sd, hd, heq⟩
  · rw [heq]
    exact ⟨fun l hl => ⟨(h.1 l hl).1, le_trans (h.1 l hl).2 (le_of_lt ht)⟩,
      h.2⟩
  · rw [heq]
    obtain ⟨pre, post, hdata, hupd⟩ :=
      updateData_split data key sd
        { sd with links := sd.links ++ [newLinkOf key body now] } hkeys hd
    have hperm : List.Perm
        (allLinks (updateData data key
          { sd with links := sd.links ++ [newLinkOf key body now] }))
        (newLinkOf key body now :: allLinks data) := by
      rw [hupd]
      conv_rhs => rw [hdata]
      rw [allLinks_append, allLinks_cons, allLinks_append, allLinks_cons]
      show List.Perm (allLinks pre ++ ((sd.links ++ [newLinkOf key body now])
          ++ allLinks post)) _
      have e1 : allLinks pre ++ ((sd.links ++ [newLinkOf key body now])
          ++ allLinks post)
          = (allLinks pre ++ sd.links)
            ++ (newLinkOf key body now :: allLinks post) := by
        simp [List.append_assoc]
      have e2 : newLinkOf key body now
          :: (allLinks pre ++ (sd.links ++ allLinks post))
          = newLinkOf key body now
          :: ((allLinks pre ++ sd.links) ++ allLinks post) := by
        rw [List.append_assoc]
      rw [e1, e2]
      exact List.perm_middle
    constructor
    · intro l hl
      rcases List.mem_cons.mp (hperm.mem_iff.mp hl) with rfl | hl'
      · exact ⟨newLinkOf_linkId .., le_of_eq (newLinkOf_addedAt ..)⟩
      · exact ⟨(h.1 l hl').1, le_trans (h.1 l hl').2 (le_of_lt ht)⟩
    · have hpm := hperm.map (fun l : Link => l.addedAt)
      rw [hpm.nodup_iff]
      rw [List.map_cons, newLinkOf_addedAt, List.nodup_cons]
      refine ⟨?_, h.2⟩
      intro hmem
      obtain ⟨l, hl, hla⟩ := List.mem_map.mp hmem
      have := (h.1 l hl).2
      omega

lemma idsInv_deleteLink {data : FileData} {key id : String} {t : Nat}
    (hkeys : (data.map Prod.fst).Nodup) (h : idsInv data t) :
    idsInv (deleteLink data key id).2 t := by
  rcases deleteLink_spec data key id with ⟨s, msg, heq⟩ |
    ⟨sd, r, rest, hd, hr, heq⟩
  · rw [heq]; exact h
  · rw [heq]
    obtain ⟨pre, post, hdata, hupd⟩ :=
      updateData_split data key sd { sd with links := rest } hkeys hd
    have hsub : (allLinks (updateData data key
        { sd with links := rest })).Sublist (allLinks data) := by
      rw [hupd]
      conv_rhs => rw [hdata]
      rw [allLinks_append, allLinks_cons, allLinks_append, allLinks_cons]
      exact List.Sublist.append (List.Sublist.refl (allLinks pre))
        (List.Sublist.append (removeFirst_sublist hr)
          (List.Sublist.refl (allLinks post)))
    exact ⟨fun l hl => h.1 l (hsub.subset hl),
      h.2.sublist (hsub.map (fun l : Link => l.addedAt))⟩

lemma idsInv_run : ∀ (ops : List Op) (data : FileData) (t : Nat),
    (data.map Prod.fst).Nodup → idsInv data t → timesStrict t ops →
    ∃ t', idsInv (run data ops) t' := by
  intro ops
  induction ops with
  | nil => intro data t _ h _; exact ⟨t, h⟩
  | cons op ops ih =>
      intro data t hkeys h hm
      have hkeys' : ((step data op).map Prod.fst).Nodup := by
        rw [step_keys]; exact hkeys
      cases op with
      | add key body now =>
          obtain ⟨ht, hm'⟩ := hm
          exact ih _ now hkeys' (idsInv_addLink hkeys h ht) hm'
      | del key id =>
          exact ih _ t hkeys' (idsInv_deleteLink hkeys h) hm

lemma idsInv_nodup_ids {data : FileData} {t : Nat} (h : idsInv data t) :
    ((allLinks data).map (fun l => l.linkId)).Nodup := by
  have h1 : (allLinks data).map (fun l => l.linkId)
      = (allLinks data).map (fun l => toString36 l.addedAt) :=
    List.map_congr_left (fun l hl => (h.1 l hl).1)
  have h2 : (allLinks data).map (fun l => toString36 l.addedAt)
      = ((allLinks data).map (fun l => l.addedAt)).map toString36 := by
    rw [List.map_map]; rfl
  rw [h1, h2]
  exact h.2.map toString36_injective

lemma sortedInv_default : sortedInv defaultJsonData 0 := by
  intro q hq
  simp only [defaultJsonData, SUBJECTS, List.map_cons, List.map_nil,
    List.mem_cons, List.not_mem_nil, or_false] at hq
  rcases hq with rfl | rfl | rfl | rfl | rfl <;>
    exact ⟨List.Pairwise.nil, by simp⟩

lemma idsInv_default : idsInv defaultJsonData 0 := by
  have h : allLinks defaultJsonData = [] := rfl
  constructor
  · intro l hl; rw [h] at hl; simp at hl
  · rw [h]; exact List.nodup_nil

lemma keys_default_nodup : (defaultJsonData.map Prod.fst).Nodup := by
  decide

lemma assocGet_map {α β : Type} (g : String × α → β) :
    ∀ (s : List (String × α)) (key : String),
      assocGet (s.map (fun p => (p.1, g p))) key
        = (assocGet s key).map (fun v => g (key, v)) := by
  intro s
  induction s with
  | nil => intro key; rfl
  | cons q rest ih =>
      intro key
      obtain ⟨k, v⟩ := q
      by_cases hk : k = key
      · subst hk
        simp [assocGet]
      · simp [assocGet, hk, ih]

/-! ### The claims -/

/-- C1 counterexample: for the unknown subject key `"xyz"` and an absent
request body, `addLink` fails with 400 (missing title/url), not with 404 as
the claim requires for every body under an unknown key. -/
theorem C1_counterexample :
    statusOf (addLink defaultJsonData "xyz" none 0).1 = 400 ∧
    ¬ statusOf (addLink defaultJsonData "xyz" none 0).1 = 404 := by
  constructor <;> decide

/-- C1 (amended): for any unknown subject key, `getSubjectLinks` and
`deleteLink` fail with 404 leaving the state unchanged; `addLink` also
leaves the state unchanged, failing with 404 when both title and url are
present and non-empty, but with 400 when either is missing or empty. -/
theorem C1_unknown_key_fails (key : String) (h : subjectsLookup key = none)
    (data : FileData) (body : Option ReqBody) (id : String) (now : Nat) :
    getSubjectLinks data key = .err 404 "Subject not found" ∧
    deleteLink data key id = (.err 404 "Subject not found", data) ∧
    (addLink data key body now).2 = data ∧
    (addLink data key body now).1 =
      (if strFalsy (body.getD ⟨none, none, none⟩).title
          || strFalsy (body.getD ⟨none, none, none⟩).url
       then .err 400 "Missing title or url"
       else .err 404 "Subject not found") := by
  have hg : getSubjectLinks data key = .err 404 "Subject not found" := by
    simp [getSubjectLinks, h]
  have hdel : deleteLink data key id = (.err 404 "Subject not found", data) := by
    simp [deleteLink, h]
  by_cases h1 : (strFalsy (body.getD ⟨none, none, none⟩).title
      || strFalsy (body.getD ⟨none, none, none⟩).url) = true
  · refine ⟨hg, hdel, ?_, ?_⟩ <;> simp [addLink, h1]
  · have h1' : (strFalsy (body.getD ⟨none, none, none⟩).title
        || strFalsy (body.getD ⟨none, none, none⟩).url) = false := by
      simpa using h1
    refine ⟨hg, hdel, ?_, ?_⟩ <;> simp [addLink, h1', h]

/-- Witness for C1 at the concrete unknown key `"xyz"`. -/
theorem C1_unknown_key_fails_witness :
    getSubjectLinks defaultJsonData "xyz" = .err 404 "Subject not found" ∧
    deleteLink defaultJsonData "xyz" "a"
      = (.err 404 "Subject not found", defaultJsonData) ∧
    (addLink defaultJsonData "xyz"
      (some ⟨some "T", some "https://example.com", none⟩) 5).2
      = defaultJsonData ∧
    (addLink defaultJsonData "xyz"
      (some ⟨some "T", some "https://example.com", none⟩) 5).1
      = .err 404 "Subject not found" := by
  have h := C1_unknown_key_fails "xyz" (by decide) defaultJsonData
    (some ⟨some "T", some "https://example.com", none⟩) "a" 5
  exact ⟨h.1, h.2.1, h.2.2.1, by rw [h.2.2.2]; decide⟩

/-- C2 counterexample: a reachable prior state (one add under `"toc"` at
tick 7) on which a second `addLink("toc", "T", "https://example.com")`
SUCCEEDS at the same `Date.now()` tick 7 — yet its id `"7"` is not freshly
assigned: it already occurs among the prior sequence's ids. -/
theorem C2_counterexample :
    (addLink (addLink defaultJsonData "toc"
        (some ⟨some "A", some "https://a.example", none⟩) 7).2 "toc"
        (some ⟨some "T", some "https://example.com", none⟩) 7).1
      = .ok 201 (newLinkOf "toc"
          (some ⟨some "T", some "https://example.com", none⟩) 7) ∧
    (newLinkOf "toc"
        (some ⟨some "T", some "https://example.com", none⟩) 7).linkId
      ∈ (linksOf (addLink defaultJsonData "toc"
          (some ⟨some "A", some "https://a.example", none⟩) 7).2 "toc").map
          (fun l => l.linkId) := by
  constructor <;> decide

/-- C2 (amended): on a known subject key whose document entry exists, a
successful `addLink(k, "T", "https://example.com")` with `addedBy` omitted,
followed by `getSubjectLinks(k)`, yields the prior sequence plus exactly
one element with title `"T"`, url `"https://example.com"`,
`addedBy = "admin"`; its id is distinct from all prior ids provided the
add's tick is strictly later than every prior link's stamp (in reachable
states prior ids are the base-36 numerals of their stamps) — a second add
in the same `Date.now()` tick reuses the time-derived id. -/
theorem C2_add_then_get (key : String) (info : SubjectInfo)
    (hkey : subjectsLookup key = some info) (data : FileData)
    (sd : SubjectData) (hd : lookupData data key = some sd) (now : Nat)
    (L : Link) (data' : FileData)
    (hadd : addLink data key
        (some ⟨some "T", some "https://example.com", none⟩) now
        = (.ok 201 L, data')) :
    getSubjectLinks data' key = .ok 200 (sd.links ++ [L]) ∧
    L.title = "T" ∧ L.url = "https://example.com" ∧ L.addedBy = "admin" ∧
    ((∀ l ∈ sd.links, l.linkId = toString36 l.addedAt) →
     (∀ l ∈ sd.links, l.addedAt < now) →
     L.linkId ∉ sd.links.map (fun l => l.linkId)) := by
  rcases addLink_spec data key
      (some ⟨some "T", some "https://example.com", none⟩) now with
    ⟨s, msg, heq⟩ | ⟨sd0, hd0, heq⟩
  · rw [heq] at hadd; simp at hadd
  · rw [hd] at hd0
    have hsd0 : sd0 = sd := (Option.some.inj hd0).symm
    rw [hsd0] at heq
    rw [heq] at hadd
    have hL : newLinkOf key
        (some ⟨some "T", some "https://example.com", none⟩) now = L := by
      have := congrArg Prod.fst hadd
      simpa using this
    have hdata' : data'
        = updateData data key { sd with links := sd.links ++ [newLinkOf key
            (some ⟨some "T", some "https://example.com", none⟩) now] } := by
      have := congrArg Prod.snd hadd
      simpa using this.symm
    refine ⟨?_, ?_, ?_, ?_, ?_⟩
    · rw [hdata', hL]
      have hlook := lookupData_updateData_self data key sd
        { sd with links := sd.links ++ [newLinkOf key
            (some ⟨some "T", some "https://example.com", none⟩) now] } hd
      rw [hL] at hlook
      simp [getSubjectLinks, hkey, linksOf, hlook]
    · rw [← hL]; rfl
    · rw [← hL]; rfl
    · rw [← hL]; rfl
    · intro hids htime
      rw [← hL]
      intro hmem
      obtain ⟨l, hl, hla⟩ := List.mem_map.mp hmem
      rw [hids l hl, newLinkOf_linkId] at hla
      have := toString36_injective hla
      have := htime l hl
      omega

/-- Witness for C2: adding to `"toc"` on the default (empty) document at
time 1. -/
theorem C2_add_then_get_witness :
    getSubjectLinks (addLink defaultJsonData "toc"
        (some ⟨some "T", some "https://example.com", none⟩) 1).2 "toc"
      = .ok 200 (([] : List Link) ++ [newLinkOf "toc"
          (some ⟨some "T", some "https://example.com", none⟩) 1]) ∧
    (newLinkOf "toc"
        (some ⟨some "T", some "https://example.com", none⟩) 1).title = "T" ∧
    (newLinkOf "toc"
        (some ⟨some "T", some "https://example.com", none⟩) 1).url
      = "https://example.com" ∧
    (newLinkOf "toc"
        (some ⟨some "T", some "https://example.com", none⟩) 1).addedBy
      = "admin" ∧
    ((∀ l ∈ ([] : List Link), l.linkId = toString36 l.addedAt) →
     (∀ l ∈ ([] : List Link), l.addedAt < 1) →
     (newLinkOf "toc"
        (some ⟨some "T", some "https://example.com", none⟩) 1).linkId
       ∉ ([] : List Link).map (fun l => l.linkId)) :=
  C2_add_then_get "toc" ⟨"Theory of Computation", "tocLinks"⟩ (by decide)
    defaultJsonData ⟨"Theory of Computation", []⟩ (by decide) 1
    (newLinkOf "toc" (some ⟨some "T", some "https://example.com", none⟩) 1)
    (addLink defaultJsonData "toc"
      (some ⟨some "T", some "https://example.com", none⟩) 1).2
    (by decide)

/-- C3 counterexample: two adds in the same `Date.now()` millisecond tick
(under two different subjects) both get id `(7).toString(36) = "7"`, so ids
are not unique across the collection after an arbitrary sequence of adds. -/
theorem C3_counterexample :
    ¬ ((allLinks (run defaultJsonData
        [.add "toc" (some ⟨some "A", some "https://a.example", none⟩) 7,
         .add "ai" (some ⟨some "B", some "https://b.example", none⟩) 7])).map
        (fun l => l.linkId)).Nodup := by
  decide

/-- C3 (amended): in the file-backed variant, after any sequence of
operations whose add timestamps are strictly increasing (no two adds share
a `Date.now()` tick), link ids are unique across the full collection. -/
theorem C3_ids_unique (ops : List Op) (h : timesStrict 0 ops) :
    ((allLinks (run defaultJsonData ops)).map (fun l => l.linkId)).Nodup := by
  obtain ⟨t', hinv⟩ :=
    idsInv_run ops defaultJsonData 0 keys_default_nodup idsInv_default h
  exact idsInv_nodup_ids hinv

/-- Witness for C3 on a two-add trace with distinct ticks. -/
theorem C3_ids_unique_witness :
    ((allLinks (run defaultJsonData
        [.add "toc" (some ⟨some "A", some "https://a.example", none⟩) 1,
         .add "ai" (some ⟨some "B", some "https://b.example", none⟩) 2])).map
        (fun l => l.linkId)).Nodup :=
  C3_ids_unique
    [.add "toc" (some ⟨some "A", some "https://a.example", none⟩) 1,
     .add "ai" (some ⟨some "B", some "https://b.example", none⟩) 2]
    ⟨by decide, by decide, trivial⟩

/-- C4: in every state reachable by requests with nondecreasing clock
readings, `getSubjectLinks` of a known key answers a sequence sorted
(nondecreasingly) by `addedAt`, i.e. insertion order. -/
theorem C4_getSubjectLinks_sorted (ops : List Op) (key : String)
    (info : SubjectInfo) (hkey : subjectsLookup key = some info)
    (hops : timesMono 0 ops) (ls : List Link)
    (hget : getSubjectLinks (run defaultJsonData ops) key = .ok 200 ls) :
    List.Pairwise (fun a b : Link => a.addedAt ≤ b.addedAt) ls := by
  obtain ⟨t', hinv⟩ :=
    sortedInv_run ops defaultJsonData 0 sortedInv_default hops
  have hls : ls = linksOf (run defaultJsonData ops) key := by
    simp [getSubjectLinks, hkey] at hget
    exact hget.symm
  rw [hls]
  unfold linksOf
  cases hd : lookupData (run defaultJsonData ops) key with
  | none => exact List.Pairwise.nil
  | some sd => exact (hinv _ (lookupData_mem hd)).1

/-- Witness for C4 on a two-add trace. -/
theorem C4_getSubjectLinks_sorted_witness :
    List.Pairwise (fun a b : Link => a.addedAt ≤ b.addedAt)
      [newLinkOf "toc" (some ⟨some "A", some "https://a.example", none⟩) 1,
       newLinkOf "toc" (some ⟨some "B", some "https://b.example", none⟩) 2] :=
  C4_getSubjectLinks_sorted
    [.add "toc" (some ⟨some "A", some "https://a.example", none⟩) 1,
     .add "toc" (some ⟨some "B", some "https://b.example", none⟩) 2]
    "toc" ⟨"Theory of Computation", "tocLinks"⟩ (by decide)
    ⟨by decide, by decide, trivial⟩
    [newLinkOf "toc" (some ⟨some "A", some "https://a.example", none⟩) 1,
     newLinkOf "toc" (some ⟨some "B", some "https://b.example", none⟩) 2]
    (by decide)

/-- C5: `getAllSubjects` has exactly the registry's keys (in registry
order), and the entry of every known key carries that subject's display
name and its stored link sequence — the empty sequence when the document
has no links (or no entry) for it; no known subject is omitted. -/
theorem C5_getAllSubjects_complete (data : FileData) (key : String)
    (info : SubjectInfo) (hkey : subjectsLookup key = some info) :
    (getAllSubjects data).map Prod.fst = SUBJECTS.map Prod.fst ∧
    lookupData (getAllSubjects data) key
      = some ⟨info.name, linksOf data key⟩ ∧
    (lookupData data key = none → linksOf data key = []) := by
  refine ⟨?_, ?_, ?_⟩
  · rw [getAllSubjects, List.map_map]
    apply List.map_congr_left
    intro p _
    rfl
  · have h := assocGet_map
      (fun p : String × SubjectInfo =>
        ({ name := p.2.name, links := linksOf data p.1 } : SubjectData))
      SUBJECTS key
    show assocGet (getAllSubjects data) key = _
    rw [getAllSubjects, h]
    rw [show assocGet SUBJECTS key = some info from hkey]
    rfl
  · intro h
    simp [linksOf, h]

/-- Witness for C5 on the empty document (no entry for any subject). -/
theorem C5_getAllSubjects_complete_witness :
    (getAllSubjects ([] : FileData)).map Prod.fst = SUBJECTS.map Prod.fst ∧
    lookupData (getAllSubjects ([] : FileData)) "toc"
      = some ⟨"Theory of Computation", linksOf ([] : FileData) "toc"⟩ ∧
    (lookupData ([] : FileData) "toc" = none
      → linksOf ([] : FileData) "toc" = []) :=
  C5_getAllSubjects_complete [] "toc" ⟨"Theory of Computation", "tocLinks"⟩
    (by decide)

/-- C6: for a known subject key, a non-empty title and a url that fails
URL parsing, `addLink` fails with 400 (BadRequest) and the stored state is
unchanged, as a subsequent `getSubjectLinks` confirms. -/
theorem C6_invalid_url_rejected (key : String) (info : SubjectInfo)
    (hkey : subjectsLookup key = some info) (data : FileData)
    (title : String) (ht : title ≠ "") (url : String)
    (hu : isValidURL url = false) (ab : Option String) (now : Nat) :
    statusOf (addLink data key (some ⟨some title, some url, ab⟩) now).1
      = 400 ∧
    (addLink data key (some ⟨some title, some url, ab⟩) now).2 = data ∧
    getSubjectLinks
        (addLink data key (some ⟨some title, some url, ab⟩) now).2 key
      = getSubjectLinks data key := by
  by_cases hurl : url = ""
  · have h1 : (strFalsy (some title) || strFalsy (some url)) = true := by
      simp [strFalsy, hurl]
    refine ⟨?_, ?_, ?_⟩ <;> simp [addLink, h1, statusOf]
  · have h1 : (strFalsy (some title) || strFalsy (some url)) = false := by
      simp [strFalsy, ht, hurl]
    refine ⟨?_, ?_, ?_⟩ <;> simp [addLink, h1, hkey, hu, statusOf]

/-- Witness for C6 with `"not-a-url"` under `"toc"`. -/
theorem C6_invalid_url_rejected_witness :
    statusOf (addLink defaultJsonData "toc"
        (some ⟨some "T", some "not-a-url", none⟩) 3).1 = 400 ∧
    (addLink defaultJsonData "toc"
        (some ⟨some "T", some "not-a-url", none⟩) 3).2 = defaultJsonData ∧
    getSubjectLinks (addLink defaultJsonData "toc"
        (some ⟨some "T", some "not-a-url", none⟩) 3).2 "toc"
      = getSubjectLinks defaultJsonData "toc" :=
  C6_invalid_url_rejected "toc" ⟨"Theory of Computation", "tocLinks"⟩
    (by decide) defaultJsonData "T" (by decide) "not-a-url" (by decide)
    none 3

/-- C7: for a known subject key, when some record under that subject has
the requested id, `deleteLink` succeeds (200), removing exactly the first
such record and returning it, leaving the earlier records (which do not
match), the rest of that subject's list, and every other subject
untouched; when no record under that subject has the id, it answers 404
with the state unchanged. -/
theorem C7_deleteLink_correct (key : String) (info : SubjectInfo)
    (hkey : subjectsLookup key = some info) (data : FileData) (id : String) :
    ((∃ l ∈ linksOf data key, l.linkId = id) →
       ∃ r data', deleteLink data key id = (.ok 200 r, data') ∧
         r.linkId = id ∧
         ∃ sd pre post, lookupData data key = some sd ∧
           sd.links = pre ++ r :: post ∧
           (∀ l ∈ pre, l.linkId ≠ id) ∧
           lookupData data' key = some ⟨sd.name, pre ++ post⟩ ∧
           ∀ k', k' ≠ key → lookupData data' k' = lookupData data k') ∧
    ((∀ l ∈ linksOf data key, l.linkId ≠ id) →
       deleteLink data key id = (.err 404 "Link not found", data)) := by
  constructor
  · rintro ⟨l, hl, hlid⟩
    cases hd : lookupData data key with
    | none => simp [linksOf, hd] at hl
    | some sd =>
        have hl' : l ∈ sd.links := by simpa [linksOf, hd] using hl
        cases hr : removeFirst (fun x => x.linkId == id) sd.links with
        | none =>
            have := removeFirst_none_forall hr l hl'
            simp [hlid] at this
        | some pr =>
            obtain ⟨r, rest⟩ := pr
            have hdel : deleteLink data key id
                = (.ok 200 r, updateData data key { sd with links := rest })
                := by
              simp [deleteLink, hkey, hd, hr]
            obtain ⟨hpr, pre, post, hls, hrest, hpre⟩ :=
              removeFirst_eq_some hr
            refine ⟨r, updateData data key { sd with links := rest }, hdel,
              by simpa using hpr, sd, pre, post, rfl, hls, ?_, ?_, ?_⟩
            · intro x hx
              have := hpre x hx
              simpa using this
            · rw [hrest]
              exact lookupData_updateData_self data key sd _ hd
            · intro k' hk'
              exact lookupData_updateData_ne data key k' _ hk'
  · intro hmiss
    cases hd : lookupData data key with
    | none => simp [deleteLink, hkey, hd]
    | some sd =>
        have hrf : removeFirst (fun l => l.linkId == id) sd.links = none := by
          apply removeFirst_none_of
          intro l hl
          have : l.linkId ≠ id := by
            apply hmiss
            simp [linksOf, hd, hl]
          simpa using this
        simp [deleteLink, hkey, hd, hrf]

/-- Witness for C7: deleting the only link of `"toc"` after one add; the
match exists, so the hit branch is exercised non-vacuously. -/
theorem C7_deleteLink_correct_witness :
    ((∃ l ∈ linksOf (addLink defaultJsonData "toc"
          (some ⟨some "T", some "https://example.com", none⟩) 1).2 "toc",
        l.linkId = toString36 1) →
       ∃ r data',
         deleteLink (addLink defaultJsonData "toc"
             (some ⟨some "T", some "https://example.com", none⟩) 1).2 "toc"
             (toString36 1)
           = (.ok 200 r, data') ∧
         r.linkId = toString36 1 ∧
         ∃ sd pre post,
           lookupData (addLink defaultJsonData "toc"
               (some ⟨some "T", some "https://example.com", none⟩) 1).2 "toc"
             = some sd ∧
           sd.links = pre ++ r :: post ∧
           (∀ l ∈ pre, l.linkId ≠ toString36 1) ∧
           lookupData data' "toc" = some ⟨sd.name, pre ++ post⟩ ∧
           ∀ k', k' ≠ "toc" →
             lookupData data' k'
               = lookupData (addLink defaultJsonData "toc"
                   (some ⟨some "T", some "https://example.com", none⟩) 1).2
                   k') ∧
    ((∀ l ∈ linksOf (addLink defaultJsonData "toc"
          (some ⟨some "T", some "https://example.com", none⟩) 1).2 "toc",
        l.linkId ≠ toString36 1) →
       deleteLink (addLink defaultJsonData "toc"
           (some ⟨some "T", some "https://example.com", none⟩) 1).2 "toc"
           (toString36 1)
         = (.err 404 "Link not found",
            (addLink defaultJsonData "toc"
              (some ⟨some "T", some "https://example.com", none⟩) 1).2)) :=
  C7_deleteLink_correct "toc" ⟨"Theory of Computation", "tocLinks"⟩
    (by decide)
    (addLink defaultJsonData "toc"
      (some ⟨some "T", some "https://example.com", none⟩) 1).2
    (toString36 1)

/-- C8: a successful `addLink` under one known subject leaves
`getSubjectLinks` of every other known subject unchanged. -/
theorem C8_cross_subject_isolation (k1 k2 : String) (i1 i2 : SubjectInfo)
    (h1 : subjectsLookup k1 = some i1) (h2 : subjectsLookup k2 = some i2)
    (hne : k2 ≠ k1) (data : FileData) (body : Option ReqBody) (now : Nat)
    (L : Link) (data' : FileData)
    (hadd : addLink data k1 body now = (.ok 201 L, data')) :
    getSubjectLinks data' k2 = getSubjectLinks data k2 := by
  rcases addLink_spec data k1 body now with ⟨s, msg, heq⟩ | ⟨sd, hd, heq⟩
  · rw [heq] at hadd; simp at hadd
  · rw [heq] at hadd
    have hdata' : data' = updateData data k1
        { sd with links := sd.links ++ [newLinkOf k1 body now] } := by
      have := congrArg Prod.snd hadd
      simpa using this.symm
    rw [hdata']
    simp [getSubjectLinks, h2, linksOf,
      lookupData_updateData_ne data k1 k2 _ hne]

/-- Witness for C8: adding under `"toc"` does not change `"ai"`. -/
theorem C8_cross_subject_isolation_witness :
    getSubjectLinks (addLink defaultJsonData "toc"
        (some ⟨some "T", some "https://example.com", none⟩) 1).2 "ai"
      = getSubjectLinks defaultJsonData "ai" :=
  C8_cross_subject_isolation "toc" "ai"
    ⟨"Theory of Computation", "tocLinks"⟩
    ⟨"Artificial Intelligence", "aiLinks"⟩ (by decide) (by decide)
    (by decide) defaultJsonData
    (some ⟨some "T", some "https://example.com", none⟩) 1
    (newLinkOf "toc" (some ⟨some "T", some "https://example.com", none⟩) 1)
    (addLink defaultJsonData "toc"
      (some ⟨some "T", some "https://example.com", none⟩) 1).2
    (by decide)

/-- C9: an `addLink` with `addedBy = ""` (a falsy but present value)
persists `addedBy = "admin"` in both backends: the created links of both
the file and the database variant carry `"admin"`, and both stores append
exactly that record. -/
theorem C9_empty_addedBy_defaults_admin (key : String) (data : FileData)
    (sd : SubjectData) (hd : lookupData data key = some sd) (st : DbState)
    (t u : String) (newId : String) (now : Nat) (L M : Link)
    (data' : FileData) (st' : DbState)
    (hfile : addLink data key (some ⟨some t, some u, some ""⟩) now
      = (.ok 201 L, data'))
    (hdb : dbAddLink st key (some ⟨some t, some u, some ""⟩) newId now
      = (.ok 201 M, st')) :
    L.addedBy = "admin" ∧ M.addedBy = "admin" ∧
    lookupData data' key = some ⟨sd.name, sd.links ++ [L]⟩ ∧
    st'.links = st.links ++ [M] := by
  rcases addLink_spec data key (some ⟨some t, some u, some ""⟩) now with
    ⟨s, msg, heq⟩ | ⟨sd0, hd0, heq⟩
  · rw [heq] at hfile; simp at hfile
  · rw [hd] at hd0
    have hsd0 : sd0 = sd := (Option.some.inj hd0).symm
    rw [hsd0] at heq
    rw [heq] at hfile
    have hL : newLinkOf key (some ⟨some t, some u, some ""⟩) now = L := by
      have := congrArg Prod.fst hfile
      simpa using this
    have hdata' : data' = updateData data key
        { sd with links := sd.links ++ [newLinkOf key
            (some ⟨some t, some u, some ""⟩) now] } := by
      have := congrArg Prod.snd hfile
      simpa using this.symm
    have hMadm : M.addedBy = "admin" ∧ st'.links = st.links ++ [M] := by
      rcases dbAddLink_spec st key (some ⟨some t, some u, some ""⟩) newId now
        with ⟨s, msg, heq'⟩ | heq'
      · rw [heq'] at hdb; simp at hdb
      · rw [heq'] at hdb
        have hM : createdOf key (some ⟨some t, some u, some ""⟩) newId now
            = M := by
          have := congrArg Prod.fst hdb
          simpa using this
        have hst : st' = ⟨st.links ++ [createdOf key
            (some ⟨some t, some u, some ""⟩) newId now]⟩ := by
          have := congrArg Prod.snd hdb
          simpa using this.symm
        constructor
        · rw [← hM]
          simp [createdOf, strFalsy]
        · rw [hst, hM]
    refine ⟨?_, hMadm.1, ?_, hMadm.2⟩
    · rw [← hL]
      simp [newLinkOf, strFalsy]
    · rw [hdata', hL]
      exact lookupData_updateData_self data key sd _ hd

/-- Witness for C9 at `"toc"`, time 1, database id `"x"`. -/
theorem C9_empty_addedBy_defaults_admin_witness :
    (newLinkOf "toc"
        (some ⟨some "T", some "https://example.com", some ""⟩) 1).addedBy
      = "admin" ∧
    (Link.mk "x" "toc" "T" "https://example.com" "admin" 1).addedBy
      = "admin" ∧
    lookupData (addLink defaultJsonData "toc"
        (some ⟨some "T", some "https://example.com", some ""⟩) 1).2 "toc"
      = some ⟨"Theory of Computation",
          ([] : List Link) ++ [newLinkOf "toc"
            (some ⟨some "T", some "https://example.com", some ""⟩) 1]⟩ ∧
    (DbState.mk ([] ++ [Link.mk "x" "toc" "T" "https://example.com"
        "admin" 1])).links
      = ([] : List Link)
        ++ [Link.mk "x" "toc" "T" "https://example.com" "admin" 1] :=
  C9_empty_addedBy_defaults_admin "toc" defaultJsonData
    ⟨"Theory of Computation", []⟩ (by decide) ⟨[]⟩ "T" "https://example.com"
    "x" 1
    (newLinkOf "toc" (some ⟨some "T", some "https://example.com", some ""⟩) 1)
    (Link.mk "x" "toc" "T" "https://example.com" "admin" 1)
    (addLink defaultJsonData "toc"
      (some ⟨some "T", some "https://example.com", some ""⟩) 1).2
    (DbState.mk ([] ++ [Link.mk "x" "toc" "T" "https://example.com"
      "admin" 1]))
    (by decide) (by decide)

/-- C10: in the file variant, when the stored document lacks the entry of a
known subject key, `getAllSubjects` and `getSubjectLinks` tolerate the
absence and report an empty sequence, but `addLink` with a valid body fails
with 500 (the JS handler dereferences the missing entry) and persists
nothing. -/
theorem C10_missing_entry (key : String) (info : SubjectInfo)
    (hkey : subjectsLookup key = some info) (data : FileData)
    (hd : lookupData data key = none) (title url : String)
    (ht : title ≠ "") (hu : isValidURL url = true) (ab : Option String)
    (now : Nat) :
    lookupData (getAllSubjects data) key = some ⟨info.name, []⟩ ∧
    getSubjectLinks data key = .ok 200 [] ∧
    addLink data key (some ⟨some title, some url, ab⟩) now
      = (.err 500 "Failed to add link", data) := by
  have hlinks : linksOf data key = [] := by simp [linksOf, hd]
  refine ⟨?_, ?_, ?_⟩
  · have h := assocGet_map
      (fun p : String × SubjectInfo =>
        ({ name := p.2.name, links := linksOf data p.1 } : SubjectData))
      SUBJECTS key
    show assocGet (getAllSubjects data) key = _
    rw [getAllSubjects, h]
    rw [show assocGet SUBJECTS key = some info from hkey]
    simp [hlinks]
  · simp [getSubjectLinks, hkey, hlinks]
  · have hne : url ≠ "" := by
      intro h0
      rw [h0] at hu
      exact absurd hu (by decide)
    have h1 : (strFalsy (some title) || strFalsy (some url)) = false := by
      simp [strFalsy, ht, hne]
    simp [addLink, h1, hkey, hu, hd]

/-- Witness for C10: the document missing its `"toc"` entry. -/
theorem C10_missing_entry_witness :
    lookupData (getAllSubjects (defaultJsonData.drop 1)) "toc"
      = some ⟨"Theory of Computation", []⟩ ∧
    getSubjectLinks (defaultJsonData.drop 1) "toc" = .ok 200 [] ∧
    addLink (defaultJsonData.drop 1) "toc"
        (some ⟨some "T", some "https://example.com", none⟩) 4
      = (.err 500 "Failed to add link", defaultJsonData.drop 1) :=
  C10_missing_entry "toc" ⟨"Theory of Computation", "tocLinks"⟩ (by decide)
    (defaultJsonData.drop 1) (by decide) "T" "https://example.com"
    (by decide) (by decide) none 4
